import Mathlib

/-!
Verification development for the oscal-mcp repository.

The definitions below are a shallow embedding of the JavaScript sources:
  * `src/utils/controlUtils.js` — control identifier parsing, rendering,
    comparison (`parse`, `normalize`, `compareControlIds`);
  * `src/services/sspService.js` — SSP creation, control implementation
    upsert, validation (`createSSP`, `addControlImplementation`,
    `validateSSP`);
  * `src/services/oscalService.js` — baseline resolution
    (`getBaselineControls`) and catalog access (`getControl`).

Modelling conventions: JavaScript strings are Lean `String`s over their
character lists; thrown JS errors become `Except SspError`; timestamps
(`new Date().toISOString()`) are injected `Nat` parameters; IEEE-754
arithmetic of `toFixed(2)`/`parseFloat` is modelled exactly over `ℚ`
(round half up to two decimal places); `toUpperCase` and the regex
character classes are modelled over the ASCII range exercised by control
identifiers.
-/

namespace OscalMcp

/-- Character class `[0-9]` of the controlUtils regexes. -/
def isDigitCh (c : Char) : Bool := 48 ≤ c.toNat && c.toNat ≤ 57

/-- Character class `[A-Z]` of the controlUtils regexes. -/
def isUpperCh (c : Char) : Bool := 65 ≤ c.toNat && c.toNat ≤ 90

/-- Lowercase ASCII letters, the characters `toUpperCase` changes here. -/
def isLowerCh (c : Char) : Bool := 97 ≤ c.toNat && c.toNat ≤ 122

/-- ASCII part of the JS regex class `\s` (space, tab, LF, VT, FF, CR). -/
def isSpaceCh (c : Char) : Bool :=
  c.toNat = 32 || c.toNat = 9 || c.toNat = 10 || c.toNat = 11 || c.toNat = 12 || c.toNat = 13

/-- Model of `String.prototype.toUpperCase` on one ASCII character. -/
def jsToUpper (c : Char) : Char :=
  if isLowerCh c then Char.ofNat (c.toNat - 32) else c

/-- Model of `toUpperCase` on a whole string. -/
def jsToUpperStr (s : String) : String := ⟨s.data.map jsToUpper⟩

/-- Value of a decimal digit character, as used by `parseInt(-, 10)`. -/
def digitVal (c : Char) : Nat := c.toNat - 48

/-- Numeric value of a digit string, the exact semantics of `parseInt(ds, 10)`
on a match of `[0-9]+` (the embedding uses unbounded `Nat`; the JS code
relies on the same values for catalog-sized numbers). -/
def natOfDigits (l : List Char) : Nat :=
  l.foldl (fun acc c => 10 * acc + digitVal c) 0

/-- Decimal digit character for `d < 10`, used when rendering numbers. -/
def digitChar (d : Nat) : Char := Char.ofNat (48 + d)

/-- Fuel-driven digit rendering; the fuel is structural so the kernel can
evaluate it (any fuel above the value gives the same digits). -/
def natDigitsAux (fuel : Nat) (n : Nat) : List Char :=
  match fuel with
  | 0 => []
  | f + 1 => if n < 10 then [digitChar n] else natDigitsAux f (n / 10) ++ [digitChar (n % 10)]

/-- Decimal rendering of a natural number, the semantics of `${number}`
in the JS template literals of `parse`. -/
def natDigits (n : Nat) : List Char := natDigitsAux (n + 1) n

/-- Parsed control identifier: the `family`, `number`, `enhancement`
fields of the object returned by `parse` in controlUtils.js. -/
structure ControlParts where
  family : String
  number : Nat
  enhancement : Option Nat
  deriving Repr, DecidableEq

/-- Consume one expected literal character, as a regex literal does. -/
def expectChar (c : Char) : List Char → Option (List Char)
  | [] => none
  | x :: xs => if x = c then some xs else none

/-- Consume a maximal nonempty digit run `[0-9]+` and return its
`parseInt` value with the remaining characters (greedy matching; every
following regex element in the five grammars is a non-digit, so this is
exactly the regex semantics). -/
def readNum (cs : List Char) : Option (Nat × List Char) :=
  let ds := cs.takeWhile isDigitCh
  if ds.isEmpty then none else some (natOfDigits ds, cs.dropWhile isDigitCh)

/-- Tail matcher for the dotted grammar `^([A-Z]{2})\.([0-9]+)(?:\.([0-9]+))?$`,
applied to the characters after the two family letters. -/
def matchDotTail (cs : List Char) : Option (Nat × Option Nat) := do
  let r1 ← expectChar '.' cs
  let (n, r2) ← readNum r1
  if r2.isEmpty then some (n, none) else do
    let r3 ← expectChar '.' r2
    let (e, r4) ← readNum r3
    if r4.isEmpty then some (n, some e) else none

/-- Tail matcher for `^([A-Z]{2})-([0-9]+)(?:\(([0-9]+)\))?$`. -/
def matchParenTail (cs : List Char) : Option (Nat × Option Nat) := do
  let r1 ← expectChar '-' cs
  let (n, r2) ← readNum r1
  if r2.isEmpty then some (n, none) else do
    let r3 ← expectChar '(' r2
    let (e, r4) ← readNum r3
    let r5 ← expectChar ')' r4
    if r5.isEmpty then some (n, some e) else none

/-- Tail matcher for `^([A-Z]{2})-([0-9]+)$` (third pattern in source order;
every string it accepts is already accepted by the paren pattern). -/
def matchHyphenTail (cs : List Char) : Option (Nat × Option Nat) := do
  let r1 ← expectChar '-' cs
  let (n, r2) ← readNum r1
  if r2.isEmpty then some (n, none) else none

/-- Tail matcher for `^([A-Z]{2})\s+([0-9]+)$`. -/
def matchSpaceTail (cs : List Char) : Option (Nat × Option Nat) :=
  if (cs.takeWhile isSpaceCh).isEmpty then none else do
    let (n, r2) ← readNum (cs.dropWhile isSpaceCh)
    if r2.isEmpty then some (n, none) else none

/-- Tail matcher for `^([A-Z]{2})([0-9]+)$`. -/
def matchNoSepTail (cs : List Char) : Option (Nat × Option Nat) := do
  let (n, r2) ← readNum cs
  if r2.isEmpty then some (n, none) else none

/-- The five grammars tried in source order, first match wins. -/
def matchTail (cs : List Char) : Option (Nat × Option Nat) :=
  matchDotTail cs <|> matchParenTail cs <|> matchHyphenTail cs <|>
    matchSpaceTail cs <|> matchNoSepTail cs

/-- Embedding of `parse` from controlUtils.js: uppercase the input, try the
five anchored regexes in priority order, extract family / number /
enhancement.  A falsy (empty) input or an unmatched input throws in JS,
modelled as `none`. -/
def parse (s : String) : Option ControlParts :=
  match s.data.map jsToUpper with
  | f1 :: f2 :: rest =>
    if isUpperCh f1 && isUpperCh f2 then
      (matchTail rest).map (fun ne => ⟨⟨[f1, f2]⟩, ne.1, ne.2⟩)
    else none
  | _ => none

/-- The `internal` (dotted) rendering built by `parse`:
`FAMILY.NUMBER[.ENHANCEMENT]`. -/
def internalForm (p : ControlParts) : String :=
  ⟨p.family.data ++ '.' :: natDigits p.number ++
    (match p.enhancement with
     | none => []
     | some e => '.' :: natDigits e)⟩

/-- The `mcp` (hyphen/paren) rendering built by `parse`:
`FAMILY-NUMBER[(ENHANCEMENT)]`. -/
def mcpForm (p : ControlParts) : String :=
  ⟨p.family.data ++ '-' :: natDigits p.number ++
    (match p.enhancement with
     | none => []
     | some e => '(' :: natDigits e ++ [')'])⟩

/-- Embedding of `normalize(controlId, format)` from controlUtils.js. -/
def normalize (controlId : String) (format : String := "hyphen") : Option String :=
  (parse controlId).map (fun p => if format = "dot" then internalForm p else mcpForm p)

/-- Lexicographic comparison of character lists by code unit, the semantics
of the JS `<` operator on the family strings. -/
def strCmp : List Char → List Char → Int
  | [], [] => 0
  | [], _ :: _ => -1
  | _ :: _, [] => 1
  | a :: as, b :: bs =>
    if a.toNat < b.toNat then -1
    else if b.toNat < a.toNat then 1
    else strCmp as bs

/-- Enhancement collation key: `undefined` maps to `-1` in the source,
so an absent enhancement sorts before any present one (including 0). -/
def enhInt : Option Nat → Int
  | none => -1
  | some e => (e : Int)

/-- Comparison of two already-parsed identifiers: family, then number,
then enhancement, exactly the branch structure of `compareControlIds`. -/
def cmpParts (a b : ControlParts) : Int :=
  if strCmp a.family.data b.family.data = -1 then -1
  else if strCmp b.family.data a.family.data = -1 then 1
  else if a.number < b.number then -1
  else if b.number < a.number then 1
  else if enhInt a.enhancement < enhInt b.enhancement then -1
  else if enhInt b.enhancement < enhInt a.enhancement then 1
  else 0

/-- Embedding of `compareControlIds` from controlUtils.js: throws (`none`)
on a falsy argument or an unparsable argument, otherwise compares the
parsed components. -/
def compareControlIds (a b : String) : Option Int :=
  if a.data.isEmpty || b.data.isEmpty then none
  else do
    let pa ← parse a
    let pb ← parse b
    pure (cmpParts pa pb)

/-- Error taxonomy of the service layer: each constructor stands for one
of the `throw new Error(...)` sites in the JS sources, carrying the
context string the message interpolates. -/
inductive SspError where
  | malformedIdentifier (controlId : String)
  | invalidSecurityLevel (securityLevel : String)
  | invalidStatus (implementationStatus : String)
  | sspNotFound (sspId : String)
  | implementationNotFound (controlId : String)
  | profileNotFound (securityLevel : String)
  | emptyProfile (securityLevel : String)
  deriving Repr, DecidableEq

deriving instance DecidableEq for Except

/-- Effectful map used where the JS code maps a throwing function over an
array: the first failure aborts the whole operation. -/
def mapExcept (f : α → Except SspError β) : List α → Except SspError (List β)
  | [] => .ok []
  | a :: as => do
    let b ← f a
    let bs ← mapExcept f as
    pure (b :: bs)

/-- The `normalizeControlId` call of the services (default `hyphen` format),
lifted to `Except`: an unparsable id throws. -/
def normalizeE (controlId : String) : Except SspError String :=
  match parse controlId with
  | none => .error (.malformedIdentifier controlId)
  | some p => .ok (mcpForm p)

/-- One entry of `ssp.controlImplementations`.  `lastUpdated` is `none` for
records seeded by `createSSP` (which sets no such field) and `some t` for
records written by `addControlImplementation`. -/
structure Implementation where
  controlId : String
  status : String
  description : String
  responsibleRoles : List String
  lastUpdated : Option Nat
  deriving Repr, DecidableEq

/-- The SSP document fields the claims are about (`systemCharacteristics`
is flattened to its `securityImpactLevel`; metadata not read by any
claimed operation is omitted). -/
structure SSP where
  id : String
  title : String
  description : String
  securityLevel : String
  controlImplementations : List Implementation
  created : Nat
  updated : Nat
  deriving Repr, DecidableEq

/-- One `include-controls` entry of an OSCAL profile import. -/
structure IncludeControls where
  withIds : Option (List String)
  deriving Repr, DecidableEq

/-- One entry of `profile.imports`. -/
structure ProfileImport where
  includeControls : Option (List IncludeControls)
  deriving Repr, DecidableEq

/-- The `profile` object of a parsed profile document. -/
structure Profile where
  imports : Option (List ProfileImport)
  deriving Repr, DecidableEq

/-- The control-id extraction walk of `getBaselineControls`: concatenate
every `with-ids` array reachable through `imports`/`include-controls`. -/
def extractControlIds (p : Profile) : List String :=
  match p.imports with
  | none => []
  | some imps =>
    imps.foldl (fun acc imp =>
      match imp.includeControls with
      | none => acc
      | some ics =>
        ics.foldl (fun acc2 ic =>
          match ic.withIds with
          | none => acc2
          | some ids => acc2 ++ ids) acc) []

/-- Embedding of `oscalService.getBaselineControls` (the profile-backed
implementation): `profileSet` stands for the loaded profile map (tier
name, uppercased, to parsed backing document); a missing tier throws
(`profileNotFound`), a tier whose document yields no control ids throws
(`emptyProfile`), otherwise the listed id strings are returned as-is. -/
def getBaselineControls (profileSet : String → Option Profile)
    (securityLevel : String) : Except SspError (List String) :=
  let normalizedLevel := jsToUpperStr securityLevel
  match profileSet normalizedLevel with
  | none => .error (.profileNotFound normalizedLevel)
  | some profile =>
    let controlIds := extractControlIds profile
    if controlIds.isEmpty then .error (.emptyProfile normalizedLevel)
    else .ok controlIds

/-- The three recognized security levels of `createSSP`. -/
def validLevels : List String := ["LOW", "MODERATE", "HIGH"]

/-- The five recognized implementation statuses of `addControlImplementation`. -/
def validStatuses : List String :=
  ["IMPLEMENTED", "PARTIALLY_IMPLEMENTED", "PLANNED", "ALTERNATIVE_IMPLEMENTATION", "NOT_APPLICABLE"]

/-- The record `createSSP` seeds for one baseline entry: normalized id,
status `PLANNED`, generated description over the raw id, no roles. -/
def seedRecord (controlId : String) : Except SspError Implementation :=
  match parse controlId with
  | none => .error (.malformedIdentifier controlId)
  | some p =>
    .ok ⟨mcpForm p, "PLANNED", "Implementation of " ++ controlId ++ " is planned.", [], none⟩

/-- Embedding of `sspService.createSSP`.  `getBaseline` is the injected
`oscalService.getBaselineControls` collaborator, `systemId` the caller's
id (JS substitutes a fresh UUID when absent — here the chosen id is the
parameter), `now` the injected clock. -/
def createSSP (getBaseline : String → Except SspError (List String))
    (title description securityLevel systemId : String) (now : Nat) :
    Except SspError SSP :=
  if securityLevel ∈ validLevels then do
    let baselineControls ← getBaseline securityLevel
    let impls ← mapExcept seedRecord baselineControls
    pure { id := systemId, title := title, description := description,
           securityLevel := securityLevel, controlImplementations := impls,
           created := now, updated := now }
  else .error (.invalidSecurityLevel securityLevel)

/-- The `findIndex`-then-replace-or-push step of `addControlImplementation`:
replace the first record whose stored `controlId` string equals the
normalized id, else append at the end. -/
def upsertRecord (r : Implementation) : List Implementation → List Implementation
  | [] => [r]
  | x :: xs => if x.controlId = r.controlId then r :: xs else x :: upsertRecord r xs

/-- Embedding of `sspService.addControlImplementation` on an in-memory
document: normalize the control id (throws on a malformed id), validate
the status, then upsert the record and bump `updated`. -/
def addControlImplementationDoc (ssp : SSP)
    (controlId implementationStatus description : String)
    (responsibleRoles : List String) (now : Nat) :
    Except SspError (SSP × Implementation) :=
  match parse controlId with
  | none => .error (.malformedIdentifier controlId)
  | some p =>
    if implementationStatus ∈ validStatuses then
      let implementation : Implementation :=
        ⟨mcpForm p, implementationStatus, description, responsibleRoles, some now⟩
      .ok ({ ssp with
              controlImplementations := upsertRecord implementation ssp.controlImplementations,
              updated := now },
           implementation)
    else .error (.invalidStatus implementationStatus)

/-- The persisted document store: one JSON file per SSP id. -/
def Store := String → Option SSP

/-- Embedding of the full `addControlImplementation` call against the
store: read the document (`getSSP`, throws when absent), run the upsert,
and only on success rewrite the file.  A thrown error leaves the store
untouched, exactly as the JS `writeFile` is only reached after all
validation. -/
def addControlImplementationRun (docs : Store)
    (sspId controlId implementationStatus description : String)
    (responsibleRoles : List String) (now : Nat) :
    Store × Except SspError Implementation :=
  match docs sspId with
  | none => (docs, .error (.sspNotFound sspId))
  | some ssp =>
    match addControlImplementationDoc ssp controlId implementationStatus description responsibleRoles now with
    | .error e => (docs, .error e)
    | .ok (ssp2, impl) => (fun k => if k = sspId then some ssp2 else docs k, .ok impl)

/-- Lookup in the status-count object with the `|| 0` default of the JS
code. -/
def lookupD (m : List (String × Nat)) (s : String) : Nat :=
  match m with
  | [] => 0
  | (k, v) :: rest => if k = s then v else lookupD rest s

/-- One `implementationByStatus[impl.status] = (… || 0) + 1` step:
increment an existing key or append a new one. -/
def bumpStatus (m : List (String × Nat)) (s : String) : List (String × Nat) :=
  match m with
  | [] => [(s, 1)]
  | (k, v) :: rest => if k = s then (k, v + 1) :: rest else (k, v) :: bumpStatus rest s

/-- The initial status-count object of `validateSSP`, all five statuses
mapped to zero. -/
def initStatusMap : List (String × Nat) :=
  [("IMPLEMENTED", 0), ("PARTIALLY_IMPLEMENTED", 0), ("PLANNED", 0),
   ("ALTERNATIVE_IMPLEMENTATION", 0), ("NOT_APPLICABLE", 0)]

/-- Round half up to two decimal places over exact rationals: the value
`parseFloat(x.toFixed(2))` denotes for the non-negative quantities of
`validateSSP`. -/
def toFixed2 (q : ℚ) : ℚ := ((⌊q * 100 + 1 / 2⌋ : ℤ) : ℚ) / 100

/-- The validation report returned by `validateSSP`. -/
structure ValidationReport where
  valid : Bool
  missingControls : List String
  implementationByStatus : List (String × Nat)
  implementationPercentage : ℚ
  totalControls : Nat
  deriving Repr, DecidableEq

/-- Embedding of `sspService.validateSSP`: resolve the baseline for the
document's level, normalize every baseline id, compute the baseline
entries with no matching record (string comparison against the stored,
already-normalized record ids), tally records by status, and score
`100 * (implemented + 0.5 * partial) / total` rounded to two decimals
(0 when the document has no records). -/
def validateSSP (getBaseline : String → Except SspError (List String))
    (ssp : SSP) : Except SspError ValidationReport := do
  let baselineControls ← getBaseline ssp.securityLevel
  let normalizedBaselineControls ← mapExcept normalizeE baselineControls
  let implementedControls := ssp.controlImplementations.map (·.controlId)
  let missingControls := normalizedBaselineControls.filter
    (fun controlId => !(implementedControls.contains controlId))
  let implementationByStatus := ssp.controlImplementations.foldl
    (fun m impl => bumpStatus m impl.status) initStatusMap
  let totalControls := ssp.controlImplementations.length
  let implementedCount := lookupD implementationByStatus "IMPLEMENTED"
  let partiallyImplementedCount := lookupD implementationByStatus "PARTIALLY_IMPLEMENTED"
  let implementationPercentage : ℚ :=
    if totalControls = 0 then 0
    else toFixed2 (((implementedCount : ℚ) + (partiallyImplementedCount : ℚ) * (1 / 2)) /
      (totalControls : ℚ) * 100)
  pure { valid := missingControls.isEmpty,
         missingControls := missingControls,
         implementationByStatus := implementationByStatus,
         implementationPercentage := implementationPercentage,
         totalControls := totalControls }

/-- Control metadata returned by `oscalService.getControl`. -/
structure ControlMetadata where
  id : String
  title : String
  description : String
  family : String
  deriving Repr, DecidableEq

/-- Prefix of a string before its first occurrence of `sep`: the value of
`s.split(sep)[0]`. -/
def splitHead (s : String) (sep : Char) : String :=
  ⟨s.data.takeWhile (fun c => c ≠ sep)⟩

/-- The control catalog loaded by `loadControlCatalog`: its `controls`
object is empty (`{}`), so no identifier is present in it. -/
def catalogControls : List String := []

/-- Embedding of `oscalService.getControl`: normalize the id (throws on a
malformed id) and synthesize placeholder metadata; no catalog lookup is
performed. -/
def getControl (controlId : String) : Except SspError ControlMetadata :=
  match parse controlId with
  | none => .error (.malformedIdentifier controlId)
  | some p =>
    let normalizedId := mcpForm p
    let famHyphen := splitHead normalizedId '-'
    .ok { id := normalizedId,
          title := "Control " ++ normalizedId,
          description := "This is a placeholder for control " ++ normalizedId,
          family := if famHyphen ≠ "" then famHyphen else splitHead normalizedId '.' }

/-- The characters an enhancement contributes to the hyphen/paren form. -/
def mcpTail : Option Nat → List Char
  | none => []
  | some ev => '(' :: (natDigits ev ++ [')'])

/-- The characters an enhancement contributes to the dotted form. -/
def dotTail : Option Nat → List Char
  | none => []
  | some ev => '.' :: natDigits ev

/-- Strict ordering on parsed identifiers: family first (code-unit
lexicographic, the JS string `<`), then number, then enhancement with
absence before presence. -/
def keyLt (a b : ControlParts) : Prop :=
  strCmp a.family.data b.family.data = -1 ∨
    (a.family = b.family ∧ (a.number < b.number ∨
      (a.number = b.number ∧ enhInt a.enhancement < enhInt b.enhancement)))

/-- An implementation record with its `lastUpdated` timestamp erased, for
stating what an upsert may change besides the timestamp. -/
def stripTime (r : Implementation) : Implementation := { r with lastUpdated := none }

/-- Canonical equality of two identifier strings: both parse, and to the
same components. -/
def canonEq (a b : String) : Prop :=
  (parse a).isSome = true ∧ parse a = parse b

/-- The document invariant claimed by the spec: no two records for the
same canonical control identifier. -/
def atMostOnePerCanonical (l : List Implementation) : Prop :=
  l.Pairwise (fun r1 r2 => ¬ canonEq r1.controlId r2.controlId)

/-- Record list keyed by canonical identifier strings: every stored id is
in normalized (hyphen/paren) form and the stored ids are pairwise
distinct. -/
def canonicallyKeyed (l : List Implementation) : Prop :=
  (∀ r ∈ l, normalize r.controlId = some r.controlId) ∧
    l.Pairwise (fun r1 r2 => r1.controlId ≠ r2.controlId)

/-- Backing profile of the spec scenarios: a MODERATE baseline resolving
to exactly AC-1, AC-2, SI-4. -/
def scenProfile : Profile := ⟨some [⟨some [⟨some ["AC-1", "AC-2", "SI-4"]⟩]⟩]⟩

/-- Profile map holding only the scenario MODERATE profile. -/
def scenProfiles : String → Option Profile :=
  fun securityLevel => if securityLevel = "MODERATE" then some scenProfile else none

/-- Baseline resolver of the spec scenarios. -/
def scenResolver : String → Except SspError (List String) :=
  getBaselineControls scenProfiles

/-- Scenario B and C document: create a MODERATE SSP, mark AC-1
implemented, mark AC-2 partially implemented. -/
def scenDoc : Except SspError SSP := do
  let s0 ← createSSP scenResolver "Scenario System" "demo" "MODERATE" "sys-1" 0
  let r1 ← addControlImplementationDoc s0 "AC-1" "IMPLEMENTED" "done" [] 1
  let r2 ← addControlImplementationDoc r1.1 "AC-2" "PARTIALLY_IMPLEMENTED" "half" [] 2
  pure r2.1

/-- A profile whose `with-ids` lists the same control under two textual
forms; `getBaselineControls` performs no deduplication on it. -/
def dupProfile : Profile := ⟨some [⟨some [⟨some ["AC-1", "AC.1"]⟩]⟩]⟩

/-- Resolver backed by the duplicated-identifier profile. -/
def dupResolver : String → Except SspError (List String) :=
  getBaselineControls (fun securityLevel =>
    if securityLevel = "MODERATE" then some dupProfile else none)

/-- A document holding only records with statuses outside the score
numerator. -/
def altDoc : SSP :=
  ⟨"alt-1", "Alt System", "demo", "MODERATE",
    [⟨"AC-1", "ALTERNATIVE_IMPLEMENTATION", "compensating", [], none⟩,
     ⟨"AC-2", "NOT_APPLICABLE", "excluded", [], none⟩], 0, 0⟩

/-- A MODERATE document with no records at all. -/
def emptyDoc : SSP := ⟨"empty-1", "Empty System", "demo", "MODERATE", [], 0, 0⟩

/-- The document `createSSP` produces from the duplicated-identifier
profile: two records whose controlId strings are the same canonical
identifier. -/
def dupSSP : SSP :=
  ⟨"dup-1", "Dup System", "demo", "MODERATE",
    [⟨"AC-1", "PLANNED", "Implementation of AC-1 is planned.", [], none⟩,
     ⟨"AC-1", "PLANNED", "Implementation of AC.1 is planned.", [], none⟩], 0, 0⟩

/-- A one-document store for exercising the persisted-store operations. -/
def singleStore (ssp : SSP) : Store :=
  fun k => if k = ssp.id then some ssp else none

/-- Number of records of a document carrying a given status, the value
each key of the status-count object ends at. -/
def countStatus (l : List Implementation) (s : String) : Nat :=
  l.countP (fun i => i.status == s)

/-! Basic facts about characters, digits and rendering. -/

theorem charToNat_inj {a b : Char} (h : a.toNat = b.toNat) : a = b :=
  Char.ext (UInt32.ext h)

theorem natDigitsAux_succ (g n : Nat) :
    natDigitsAux (g + 1) n =
      if n < 10 then [digitChar n] else natDigitsAux g (n / 10) ++ [digitChar (n % 10)] := rfl

theorem digitChar_toNat {d : Nat} (h : d < 10) : (digitChar d).toNat = 48 + d := by
  interval_cases d <;> rfl

theorem isDigitCh_digitChar {d : Nat} (h : d < 10) : isDigitCh (digitChar d) = true := by
  interval_cases d <;> rfl

theorem digitVal_digitChar {d : Nat} (h : d < 10) : digitVal (digitChar d) = d := by
  simp [digitVal, digitChar_toNat h]

theorem jsToUpper_of_notLower {c : Char} (h : isLowerCh c = false) : jsToUpper c = c := by
  simp [jsToUpper, h]

theorem notLower_of_upper {c : Char} (h : isUpperCh c = true) : isLowerCh c = false := by
  simp only [isUpperCh, Bool.and_eq_true, decide_eq_true_eq] at h
  simp only [isLowerCh, Bool.and_eq_false_iff, decide_eq_false_iff_not]
  omega

theorem notLower_of_digit {c : Char} (h : isDigitCh c = true) : isLowerCh c = false := by
  simp only [isDigitCh, Bool.and_eq_true, decide_eq_true_eq] at h
  simp only [isLowerCh, Bool.and_eq_false_iff, decide_eq_false_iff_not]
  omega

theorem map_jsToUpper_id {l : List Char} (h : ∀ c ∈ l, isLowerCh c = false) :
    l.map jsToUpper = l := by
  induction l with
  | nil => rfl
  | cons x xs ih =>
    simp only [List.map_cons]
    rw [jsToUpper_of_notLower (h x (List.mem_cons_self x xs)),
      ih (fun c hc => h c (List.mem_cons_of_mem x hc))]

theorem natDigitsAux_congr {f1 f2 n : Nat} (h1 : n < f1) (h2 : n < f2) :
    natDigitsAux f1 n = natDigitsAux f2 n := by
  induction n using Nat.strong_induction_on generalizing f1 f2 with
  | _ n ih =>
    match f1, f2 with
    | g1 + 1, g2 + 1 =>
      by_cases hn : n < 10
      · rw [natDigitsAux_succ, natDigitsAux_succ, if_pos hn, if_pos hn]
      · have hdiv : n / 10 < n := Nat.div_lt_self (by omega) (by omega)
        rw [natDigitsAux_succ, natDigitsAux_succ, if_neg hn, if_neg hn]
        exact congrArg (· ++ [digitChar (n % 10)]) (ih (n / 10) hdiv (by omega) (by omega))

theorem natDigitsAux_isDigit {f n : Nat} (h : n < f) :
    ∀ c ∈ natDigitsAux f n, isDigitCh c = true := by
  induction n using Nat.strong_induction_on generalizing f with
  | _ n ih =>
    match f with
    | g + 1 =>
      by_cases hn : n < 10
      · rw [natDigitsAux_succ, if_pos hn]
        simp only [List.mem_singleton]
        rintro c rfl
        exact isDigitCh_digitChar hn
      · have hdiv : n / 10 < n := Nat.div_lt_self (by omega) (by omega)
        rw [natDigitsAux_succ, if_neg hn]
        simp only [List.mem_append, List.mem_singleton]
        rintro c (hc | rfl)
        · exact ih (n / 10) hdiv (by omega) c hc
        · exact isDigitCh_digitChar (Nat.mod_lt n (by omega))

theorem natDigitsAux_ne_nil {f n : Nat} (h : n < f) : natDigitsAux f n ≠ [] := by
  match f with
  | g + 1 =>
    by_cases hn : n < 10 <;> rw [natDigitsAux_succ] <;> simp [hn]

theorem natOfDigits_append_one (l : List Char) (c : Char) :
    natOfDigits (l ++ [c]) = 10 * natOfDigits l + digitVal c := by
  simp [natOfDigits, List.foldl_append]

theorem natOfDigits_natDigitsAux {f n : Nat} (h : n < f) :
    natOfDigits (natDigitsAux f n) = n := by
  induction n using Nat.strong_induction_on generalizing f with
  | _ n ih =>
    match f with
    | g + 1 =>
      by_cases hn : n < 10
      · rw [natDigitsAux_succ, if_pos hn]
        simp [natOfDigits, digitVal_digitChar hn]
      · have hdiv : n / 10 < n := Nat.div_lt_self (by omega) (by omega)
        rw [natDigitsAux_succ, if_neg hn]
        rw [natOfDigits_append_one, ih (n / 10) hdiv (by omega),
          digitVal_digitChar (Nat.mod_lt n (by omega))]
        omega

theorem natDigits_isDigit : ∀ c ∈ natDigits n, isDigitCh c = true :=
  natDigitsAux_isDigit (Nat.lt_succ_self n)

theorem natDigits_ne_nil : natDigits n ≠ [] :=
  natDigitsAux_ne_nil (Nat.lt_succ_self n)

theorem natOfDigits_natDigits (n : Nat) : natOfDigits (natDigits n) = n :=
  natOfDigits_natDigitsAux (Nat.lt_succ_self n)

/-! Behaviour of `takeWhile`/`dropWhile` on a block of satisfying
characters followed by a non-satisfying head, used to run the matchers
symbolically on rendered identifiers. -/

theorem takeWhile_block {p : Char → Bool} {ds rest : List Char}
    (h1 : ∀ c ∈ ds, p c = true)
    (h2 : ∀ r rs, rest = r :: rs → p r = false) :
    (ds ++ rest).takeWhile p = ds := by
  induction ds with
  | nil =>
    cases rest with
    | nil => rfl
    | cons r rs => simp [List.takeWhile_cons, h2 r rs rfl]
  | cons x xs ih =>
    simp only [List.cons_append, List.takeWhile_cons, h1 x (List.mem_cons_self x xs), if_true]
    rw [ih (fun c hc => h1 c (List.mem_cons_of_mem x hc))]

theorem dropWhile_block {p : Char → Bool} {ds rest : List Char}
    (h1 : ∀ c ∈ ds, p c = true)
    (h2 : ∀ r rs, rest = r :: rs → p r = false) :
    (ds ++ rest).dropWhile p = rest := by
  induction ds with
  | nil =>
    cases rest with
    | nil => rfl
    | cons r rs => simp [List.dropWhile_cons, h2 r rs rfl]
  | cons x xs ih =>
    simp only [List.cons_append, List.dropWhile_cons, h1 x (List.mem_cons_self x xs), if_true]
    exact ih (fun c hc => h1 c (List.mem_cons_of_mem x hc))

/-! Running the grammar matchers on rendered identifiers. -/

theorem takeWhile_all {p : Char → Bool} {l : List Char} (h : ∀ c ∈ l, p c = true) :
    l.takeWhile p = l := by
  have := @takeWhile_block p l [] h (by intro r rs hr; cases hr)
  simpa using this

theorem dropWhile_all {p : Char → Bool} {l : List Char} (h : ∀ c ∈ l, p c = true) :
    l.dropWhile p = [] := by
  have := @dropWhile_block p l [] h (by intro r rs hr; cases hr)
  simpa using this

theorem expectChar_same (c : Char) (xs : List Char) : expectChar c (c :: xs) = some xs := by
  simp [expectChar]

theorem expectChar_diff {x c : Char} (h : x ≠ c) (xs : List Char) :
    expectChar c (x :: xs) = none := by
  simp [expectChar, h]

theorem readNum_block {ds rest : List Char}
    (h1 : ∀ c ∈ ds, isDigitCh c = true) (hne : ds ≠ [])
    (h2 : ∀ r rs, rest = r :: rs → isDigitCh r = false) :
    readNum (ds ++ rest) = some (natOfDigits ds, rest) := by
  rw [readNum, takeWhile_block h1 h2, dropWhile_block h1 h2]
  simp [List.isEmpty_iff, hne]

theorem readNum_all {ds : List Char}
    (h1 : ∀ c ∈ ds, isDigitCh c = true) (hne : ds ≠ []) :
    readNum ds = some (natOfDigits ds, []) := by
  have := @readNum_block ds [] h1 hne (by intro r rs hr; cases hr)
  simpa using this

theorem matchDotTail_hyphen (cs : List Char) : matchDotTail ('-' :: cs) = none := rfl

theorem matchParenTail_no_enh (n : Nat) :
    matchParenTail ('-' :: natDigits n) = some (n, none) := by
  rw [matchParenTail, expectChar_same]
  simp only [Option.bind_eq_bind, Option.some_bind]
  rw [readNum_all natDigits_isDigit natDigits_ne_nil]
  simp [natOfDigits_natDigits]

theorem matchParenTail_with_enh (n e : Nat) :
    matchParenTail ('-' :: (natDigits n ++ '(' :: (natDigits e ++ [')']))) =
      some (n, some e) := by
  rw [matchParenTail, expectChar_same]
  simp only [Option.bind_eq_bind, Option.some_bind]
  rw [readNum_block natDigits_isDigit natDigits_ne_nil (by rintro r rs ⟨rfl, rfl⟩; rfl)]
  simp only [Option.some_bind, List.isEmpty_cons, Bool.false_eq_true, if_false, expectChar_same]
  rw [readNum_block natDigits_isDigit natDigits_ne_nil (by rintro r rs ⟨rfl, rfl⟩; rfl)]
  simp only [Option.some_bind, expectChar_same]
  simp [natOfDigits_natDigits]

theorem matchDotTail_no_enh (n : Nat) :
    matchDotTail ('.' :: natDigits n) = some (n, none) := by
  rw [matchDotTail, expectChar_same]
  simp only [Option.bind_eq_bind, Option.some_bind]
  rw [readNum_all natDigits_isDigit natDigits_ne_nil]
  simp [natOfDigits_natDigits]

theorem matchDotTail_with_enh (n e : Nat) :
    matchDotTail ('.' :: (natDigits n ++ '.' :: natDigits e)) = some (n, some e) := by
  rw [matchDotTail, expectChar_same]
  simp only [Option.bind_eq_bind, Option.some_bind]
  rw [readNum_block natDigits_isDigit natDigits_ne_nil (by rintro r rs ⟨rfl, rfl⟩; rfl)]
  simp only [Option.some_bind, List.isEmpty_cons, Bool.false_eq_true, if_false, expectChar_same]
  rw [readNum_all natDigits_isDigit natDigits_ne_nil]
  simp [natOfDigits_natDigits]

theorem matchTail_mcp (n : Nat) (e : Option Nat) :
    matchTail ('-' :: (natDigits n ++ mcpTail e)) = some (n, e) := by
  cases e with
  | none =>
    rw [mcpTail, matchTail, List.append_nil, matchDotTail_hyphen, Option.none_orElse,
      matchParenTail_no_enh, Option.some_orElse]
  | some ev =>
    rw [mcpTail, matchTail, matchDotTail_hyphen, Option.none_orElse,
      matchParenTail_with_enh, Option.some_orElse]

theorem matchTail_dot (n : Nat) (e : Option Nat) :
    matchTail ('.' :: (natDigits n ++ dotTail e)) = some (n, e) := by
  cases e with
  | none =>
    rw [dotTail, matchTail, List.append_nil, matchDotTail_no_enh, Option.some_orElse]
  | some ev =>
    rw [dotTail, matchTail, matchDotTail_with_enh, Option.some_orElse]

/-! Round trip between `parse` and the two renderings. -/

theorem parse_of_data {s : String} {f1 f2 : Char} {rest : List Char}
    (h : s.data.map jsToUpper = f1 :: f2 :: rest) :
    parse s =
      if isUpperCh f1 && isUpperCh f2 then
        (matchTail rest).map (fun ne => ⟨⟨[f1, f2]⟩, ne.1, ne.2⟩)
      else none := by
  unfold parse
  rw [h]

theorem mcpTail_notLower (e : Option Nat) :
    ∀ c ∈ mcpTail e, isLowerCh c = false := by
  cases e with
  | none => intro c hc; cases hc
  | some ev =>
    intro c hc
    rw [mcpTail] at hc
    simp only [List.mem_cons, List.mem_append, List.mem_singleton, List.not_mem_nil,
      or_false] at hc
    rcases hc with rfl | hd | rfl
    · rfl
    · exact notLower_of_digit (natDigits_isDigit c hd)
    · rfl

theorem dotTail_notLower (e : Option Nat) :
    ∀ c ∈ dotTail e, isLowerCh c = false := by
  cases e with
  | none => intro c hc; cases hc
  | some ev =>
    intro c hc
    rw [dotTail] at hc
    simp only [List.mem_cons] at hc
    rcases hc with rfl | hd
    · rfl
    · exact notLower_of_digit (natDigits_isDigit c hd)

theorem parse_mcpForm {f1 f2 : Char} (h1 : isUpperCh f1 = true) (h2 : isUpperCh f2 = true)
    (n : Nat) (e : Option Nat) :
    parse (mcpForm ⟨⟨[f1, f2]⟩, n, e⟩) = some ⟨⟨[f1, f2]⟩, n, e⟩ := by
  have hdata : (mcpForm ⟨⟨[f1, f2]⟩, n, e⟩).data
      = f1 :: f2 :: '-' :: (natDigits n ++ mcpTail e) := by
    cases e <;> rfl
  have hmap : (mcpForm ⟨⟨[f1, f2]⟩, n, e⟩).data.map jsToUpper
      = f1 :: f2 :: '-' :: (natDigits n ++ mcpTail e) := by
    rw [hdata]
    apply map_jsToUpper_id
    intro c hc
    simp only [List.mem_cons, List.mem_append] at hc
    rcases hc with rfl | rfl | rfl | hd | he
    · exact notLower_of_upper h1
    · exact notLower_of_upper h2
    · rfl
    · exact notLower_of_digit (natDigits_isDigit c hd)
    · exact mcpTail_notLower e c he
  rw [parse_of_data hmap, if_pos (by rw [h1, h2]; rfl), matchTail_mcp]
  rfl

theorem parse_internalForm {f1 f2 : Char} (h1 : isUpperCh f1 = true) (h2 : isUpperCh f2 = true)
    (n : Nat) (e : Option Nat) :
    parse (internalForm ⟨⟨[f1, f2]⟩, n, e⟩) = some ⟨⟨[f1, f2]⟩, n, e⟩ := by
  have hdata : (internalForm ⟨⟨[f1, f2]⟩, n, e⟩).data
      = f1 :: f2 :: '.' :: (natDigits n ++ dotTail e) := by
    cases e <;> rfl
  have hmap : (internalForm ⟨⟨[f1, f2]⟩, n, e⟩).data.map jsToUpper
      = f1 :: f2 :: '.' :: (natDigits n ++ dotTail e) := by
    rw [hdata]
    apply map_jsToUpper_id
    intro c hc
    simp only [List.mem_cons, List.mem_append] at hc
    rcases hc with rfl | rfl | rfl | hd | he
    · exact notLower_of_upper h1
    · exact notLower_of_upper h2
    · rfl
    · exact notLower_of_digit (natDigits_isDigit c hd)
    · exact dotTail_notLower e c he
  rw [parse_of_data hmap, if_pos (by rw [h1, h2]; rfl), matchTail_dot]
  rfl

theorem parse_some_inv {s : String} {p : ControlParts} (h : parse s = some p) :
    ∃ f1 f2 rest, s.data.map jsToUpper = f1 :: f2 :: rest ∧ isUpperCh f1 = true ∧
      isUpperCh f2 = true ∧ p.family = ⟨[f1, f2]⟩ ∧
      matchTail rest = some (p.number, p.enhancement) := by
  cases hl : s.data.map jsToUpper with
  | nil =>
    rw [parse, hl] at h
    cases h
  | cons a as =>
    cases as with
    | nil =>
      rw [parse, hl] at h
      cases h
    | cons b rest =>
      rw [parse_of_data hl] at h
      by_cases hab : isUpperCh a && isUpperCh b
      · rw [if_pos hab] at h
        rcases Option.map_eq_some'.mp h with ⟨ne, hne, hp⟩
        obtain ⟨ha1, hb1⟩ : isUpperCh a = true ∧ isUpperCh b = true := by
          simpa [Bool.and_eq_true] using hab
        refine ⟨a, b, rest, rfl, ha1, hb1, ?_, ?_⟩
        · rw [← hp]
        · rw [← hp, hne]
      · rw [if_neg hab] at h
        cases h

theorem parse_roundtrip {s : String} {p : ControlParts} (h : parse s = some p) :
    parse (mcpForm p) = some p ∧ parse (internalForm p) = some p := by
  obtain ⟨f1, f2, rest, _hmapEq, hu1, hu2, hfam, _hmt⟩ := parse_some_inv h
  cases p with
  | mk fam num enh =>
    simp only at hfam
    subst hfam
    exact ⟨parse_mcpForm hu1 hu2 num enh, parse_internalForm hu1 hu2 num enh⟩

theorem normalize_of_parse {s : String} {p : ControlParts} (h : parse s = some p) :
    normalize s = some (mcpForm p) ∧ normalize s "dot" = some (internalForm p) := by
  constructor <;> simp [normalize, h]

theorem normalize_mcpForm_fix {s : String} {p : ControlParts} (h : parse s = some p) :
    normalize (mcpForm p) = some (mcpForm p) := by
  simp [normalize, (parse_roundtrip h).1]

theorem mcpForm_inj {s t : String} {p q : ControlParts}
    (hp : parse s = some p) (hq : parse t = some q) (h : mcpForm p = mcpForm q) :
    p = q := by
  have h1 := (parse_roundtrip hp).1
  have h2 := (parse_roundtrip hq).1
  rw [h, h2] at h1
  exact (Option.some_inj.mp h1).symm

/-! Order-theoretic facts about the comparator. -/

theorem stringDataInj {s t : String} (h : s.data = t.data) : s = t := by
  cases s
  cases t
  exact congrArg String.mk h

theorem enhInt_inj {x y : Option Nat} (h : enhInt x = enhInt y) : x = y := by
  cases x <;> cases y <;> simp [enhInt] at h ⊢ <;> omega

theorem strCmp_cases (x y : List Char) :
    strCmp x y = -1 ∨ strCmp x y = 0 ∨ strCmp x y = 1 := by
  induction x generalizing y with
  | nil => cases y <;> simp [strCmp]
  | cons a as ih =>
    cases y with
    | nil => simp [strCmp]
    | cons b bs =>
      simp only [strCmp]
      split_ifs <;> simp [ih bs]

theorem strCmp_swap (x y : List Char) : strCmp y x = -strCmp x y := by
  induction x generalizing y with
  | nil => cases y <;> simp [strCmp]
  | cons a as ih =>
    cases y with
    | nil => simp [strCmp]
    | cons b bs =>
      have hI := ih bs
      simp only [strCmp]
      split_ifs <;> omega

theorem strCmp_eq_zero {x y : List Char} : strCmp x y = 0 ↔ x = y := by
  induction x generalizing y with
  | nil => cases y <;> simp [strCmp]
  | cons a as ih =>
    cases y with
    | nil => simp [strCmp]
    | cons b bs =>
      simp only [strCmp, List.cons.injEq]
      split_ifs with h1 h2
      · constructor
        · intro h; exact absurd h (by decide)
        · rintro ⟨rfl, -⟩; omega
      · constructor
        · intro h; exact absurd h (by decide)
        · rintro ⟨rfl, -⟩; omega
      · have hab : a = b := charToNat_inj (by omega)
        subst hab
        simp [ih]

theorem strCmp_self (x : List Char) : strCmp x x = 0 := strCmp_eq_zero.mpr rfl

theorem strCmp_neg_trans {x y z : List Char}
    (hxy : strCmp x y = -1) (hyz : strCmp y z = -1) : strCmp x z = -1 := by
  induction x generalizing y z with
  | nil =>
    cases z with
    | nil =>
      cases y with
      | nil => simp [strCmp] at hxy
      | cons b bs => simp [strCmp] at hyz
    | cons c cs => simp [strCmp]
  | cons a as ih =>
    cases y with
    | nil => simp [strCmp] at hxy
    | cons b bs =>
      cases z with
      | nil => simp [strCmp] at hyz
      | cons c cs =>
        simp only [strCmp] at hxy hyz ⊢
        split_ifs at hxy with h1 h2 <;> split_ifs at hyz with h3 h4 <;>
          split_ifs with g1 g2 <;>
          first
            | omega
            | exact ih hxy hyz

theorem cmpParts_swap (a b : ControlParts) : cmpParts b a = -cmpParts a b := by
  have hs := strCmp_swap a.family.data b.family.data
  unfold cmpParts
  split_ifs <;> omega

theorem cmpParts_eq_zero {a b : ControlParts} : cmpParts a b = 0 ↔ a = b := by
  constructor
  · intro h
    have hs := strCmp_swap a.family.data b.family.data
    unfold cmpParts at h
    split_ifs at h with h1 h2 h3 h4 h5 h6
    all_goals try exact absurd h (by decide)
    have h0 : strCmp a.family.data b.family.data = 0 := by
      rcases strCmp_cases a.family.data b.family.data with hc | hc | hc
      · exact absurd hc h1
      · exact hc
      · rw [hc] at hs; omega
    have hfam : a.family = b.family := stringDataInj (strCmp_eq_zero.mp h0)
    have hnum : a.number = b.number := by omega
    have henh : a.enhancement = b.enhancement := enhInt_inj (by omega)
    cases a
    cases b
    simp_all
  · rintro rfl
    unfold cmpParts
    rw [if_neg (by rw [strCmp_self]; omega), if_neg (by rw [strCmp_self]; omega)]
    simp

theorem cmpParts_neg_one_iff (a b : ControlParts) : cmpParts a b = -1 ↔ keyLt a b := by
  have hs := strCmp_swap a.family.data b.family.data
  unfold cmpParts keyLt
  rcases strCmp_cases a.family.data b.family.data with h | h | h
  · simp [h]
  · have hfam : a.family = b.family := stringDataInj (strCmp_eq_zero.mp h)
    rw [h] at hs
    constructor
    · intro hlt
      right
      refine ⟨hfam, ?_⟩
      split_ifs at hlt <;> omega
    · rintro (hbad | ⟨-, hnum⟩)
      · exfalso; omega
      · split_ifs <;> omega
  · rw [h] at hs
    constructor
    · intro hlt
      exfalso
      split_ifs at hlt <;> omega
    · rintro (hbad | ⟨hfam, -⟩)
      · exfalso; omega
      · exfalso
        rw [hfam, strCmp_self] at h
        omega

theorem keyLt_trans {a b c : ControlParts} (hab : keyLt a b) (hbc : keyLt b c) :
    keyLt a c := by
  rcases hab with h1 | ⟨hf1, h1⟩
  · rcases hbc with h2 | ⟨hf2, h2⟩
    · exact Or.inl (strCmp_neg_trans h1 h2)
    · exact Or.inl (by rw [← hf2]; exact h1)
  · rcases hbc with h2 | ⟨hf2, h2⟩
    · exact Or.inl (by rw [hf1]; exact h2)
    · exact Or.inr ⟨hf1.trans hf2, by omega⟩

theorem parse_data_ne_nil {s : String} {p : ControlParts} (h : parse s = some p) :
    s.data ≠ [] := by
  intro hnil
  rw [parse, hnil] at h
  cases h

theorem compareControlIds_eq {a b : String} {pa pb : ControlParts}
    (ha : parse a = some pa) (hb : parse b = some pb) :
    compareControlIds a b = some (cmpParts pa pb) := by
  rw [compareControlIds,
    if_neg (by simp [List.isEmpty_iff, parse_data_ne_nil ha, parse_data_ne_nil hb])]
  rw [ha, hb]
  rfl

/-! Facts about the service-layer building blocks. -/

theorem exceptBind_ok (a : α) (f : α → Except SspError β) :
    (Except.ok a >>= f) = f a := rfl

theorem exceptBind_error (e : SspError) (f : α → Except SspError β) :
    ((Except.error e : Except SspError α) >>= f) = Except.error e := rfl

theorem mapExcept_forall₂ {f : α → Except SspError β} :
    ∀ {l : List α} {l2 : List β}, mapExcept f l = .ok l2 →
      List.Forall₂ (fun a b => f a = .ok b) l l2 := by
  intro l
  induction l with
  | nil =>
    intro l2 h
    rw [mapExcept] at h
    cases h
    exact List.Forall₂.nil
  | cons a as ih =>
    intro l2 h
    rw [mapExcept] at h
    cases hfa : f a with
    | error e => rw [hfa, exceptBind_error] at h; cases h
    | ok b =>
      rw [hfa, exceptBind_ok] at h
      cases hrec : mapExcept f as with
      | error e => rw [hrec, exceptBind_error] at h; cases h
      | ok bs =>
        rw [hrec, exceptBind_ok] at h
        cases h
        exact List.Forall₂.cons hfa (ih hrec)

theorem mapExcept_length {f : α → Except SspError β} {l : List α} {l2 : List β}
    (h : mapExcept f l = .ok l2) : l2.length = l.length :=
  (mapExcept_forall₂ h).length_eq.symm

theorem mapExcept_mem_iff {f : α → Except SspError β} :
    ∀ {l : List α} {l2 : List β}, mapExcept f l = .ok l2 →
      ∀ c, (c ∈ l2 ↔ ∃ b ∈ l, f b = .ok c) := by
  intro l
  induction l with
  | nil =>
    intro l2 h c
    rw [mapExcept] at h
    cases h
    simp
  | cons a as ih =>
    intro l2 h c
    rw [mapExcept] at h
    cases hfa : f a with
    | error e => rw [hfa, exceptBind_error] at h; cases h
    | ok b =>
      rw [hfa, exceptBind_ok] at h
      cases hrec : mapExcept f as with
      | error e => rw [hrec, exceptBind_error] at h; cases h
      | ok bs =>
        rw [hrec, exceptBind_ok] at h
        cases h
        simp only [List.mem_cons]
        constructor
        · rintro (rfl | hc)
          · exact ⟨a, Or.inl rfl, hfa⟩
          · rcases (ih hrec c).mp hc with ⟨x, hx, hfx⟩
            exact ⟨x, Or.inr hx, hfx⟩
        · rintro ⟨x, rfl | hx, hfx⟩
          · left
            rw [hfa] at hfx
            injection hfx with hbc
            exact hbc.symm
          · right
            exact (ih hrec c).mpr ⟨x, hx, hfx⟩

theorem mapExcept_forall_mem {f : α → Except SspError β} {l : List α} {l2 : List β}
    (h : mapExcept f l = .ok l2) {P : β → Prop}
    (hP : ∀ a b, a ∈ l → f a = .ok b → P b) : ∀ b ∈ l2, P b := by
  intro b hb
  rcases (mapExcept_mem_iff h b).mp hb with ⟨a, ha, hfa⟩
  exact hP a b ha hfa

theorem lookupD_bump (m : List (String × Nat)) (k s : String) :
    lookupD (bumpStatus m k) s = lookupD m s + (if k = s then 1 else 0) := by
  induction m with
  | nil =>
    rw [bumpStatus, lookupD, lookupD]
    split_ifs <;> rfl
  | cons kv rest ih =>
    obtain ⟨a, v⟩ := kv
    rw [bumpStatus]
    by_cases hak : a = k
    · rw [if_pos hak, lookupD, lookupD]
      subst hak
      split_ifs <;> omega
    · rw [if_neg hak, lookupD, lookupD]
      by_cases has : a = s
      · rw [if_pos has, if_pos has, if_neg (by rw [← has]; exact fun hh => hak hh.symm)]
        omega
      · rw [if_neg has, if_neg has, ih]

theorem lookupD_foldl_bump (l : List Implementation) (m : List (String × Nat)) (s : String) :
    lookupD (l.foldl (fun acc i => bumpStatus acc i.status) m) s
      = lookupD m s + countStatus l s := by
  induction l generalizing m with
  | nil => simp [countStatus]
  | cons i rest ih =>
    rw [List.foldl_cons, ih, lookupD_bump]
    have : countStatus (i :: rest) s = (if i.status = s then 1 else 0) + countStatus rest s := by
      rw [countStatus, countStatus, List.countP_cons]
      by_cases hst : i.status = s <;> simp [hst] <;> omega
    omega

theorem upsertRecord_map_strip {r r2 : Implementation}
    (hkey : r2.controlId = r.controlId) (hstrip : stripTime r2 = stripTime r) :
    ∀ l : List Implementation,
      (upsertRecord r2 (upsertRecord r l)).map stripTime
        = (upsertRecord r l).map stripTime := by
  intro l
  induction l with
  | nil =>
    rw [upsertRecord, upsertRecord, if_pos hkey.symm, List.map_cons, List.map_cons, hstrip]
  | cons x xs ih =>
    rw [upsertRecord]
    by_cases hx : x.controlId = r.controlId
    · rw [if_pos hx, upsertRecord, if_pos hkey.symm, List.map_cons, List.map_cons, hstrip]
    · rw [if_neg hx, upsertRecord, if_neg (by rw [hkey]; exact hx), List.map_cons,
        List.map_cons, ih]

theorem upsertRecord_mem {r x : Implementation} :
    ∀ {l : List Implementation}, x ∈ upsertRecord r l → x = r ∨ x ∈ l := by
  intro l
  induction l with
  | nil =>
    intro hx
    rw [upsertRecord] at hx
    rcases List.mem_singleton.mp hx with rfl
    exact Or.inl rfl
  | cons y ys ih =>
    intro hx
    rw [upsertRecord] at hx
    split_ifs at hx with hy
    · rcases List.mem_cons.mp hx with rfl | hx2
      · exact Or.inl rfl
      · exact Or.inr (List.mem_cons_of_mem y hx2)
    · rcases List.mem_cons.mp hx with rfl | hx2
      · exact Or.inr (List.mem_cons_self ..)
      · rcases ih hx2 with rfl | hx3
        · exact Or.inl rfl
        · exact Or.inr (List.mem_cons_of_mem y hx3)

theorem upsertRecord_pairwise {r : Implementation} :
    ∀ {l : List Implementation},
      l.Pairwise (fun r1 r2 => r1.controlId ≠ r2.controlId) →
      (upsertRecord r l).Pairwise (fun r1 r2 => r1.controlId ≠ r2.controlId) := by
  intro l
  induction l with
  | nil =>
    intro _
    rw [upsertRecord]
    exact List.pairwise_singleton ..
  | cons y ys ih =>
    intro hp
    rcases List.pairwise_cons.mp hp with ⟨hy, hys⟩
    rw [upsertRecord]
    split_ifs with heq
    · refine List.pairwise_cons.mpr ⟨?_, hys⟩
      intro z hz
      rw [← heq]
      exact hy z hz
    · refine List.pairwise_cons.mpr ⟨?_, ih hys⟩
      intro z hz
      rcases upsertRecord_mem hz with rfl | hz2
      · exact heq
      · exact hy z hz2

/-! Inversion principles for the service operations. -/

theorem normalizeE_ok_iff {b c : String} :
    normalizeE b = .ok c ↔ normalize b = some c := by
  rw [normalizeE, normalize]
  cases parse b <;> simp

theorem normalizeE_ok_inv {b c : String} (h : normalizeE b = .ok c) :
    ∃ p, parse b = some p ∧ c = mcpForm p := by
  rw [normalizeE] at h
  cases hp : parse b with
  | none => rw [hp] at h; cases h
  | some p =>
    rw [hp] at h
    injection h with hh
    exact ⟨p, rfl, hh.symm⟩

theorem normalize_hyphen_inv {b c : String} (h : normalize b = some c) :
    ∃ p, parse b = some p ∧ c = mcpForm p := by
  exact normalizeE_ok_inv (normalizeE_ok_iff.mpr h)

theorem canonEq_iff_eq {x y : String}
    (hx : normalize x = some x) (hy : normalize y = some y) :
    canonEq x y ↔ x = y := by
  obtain ⟨p, hp, hxp⟩ := normalize_hyphen_inv hx
  obtain ⟨q, hq, hyq⟩ := normalize_hyphen_inv hy
  rw [canonEq]
  constructor
  · rintro ⟨-, hpq⟩
    rw [hp, hq] at hpq
    injection hpq with hpq2
    rw [hxp, hyq, hpq2]
  · rintro rfl
    exact ⟨by rw [hp]; rfl, rfl⟩

theorem seedRecord_ok_inv {cid : String} {r : Implementation} (h : seedRecord cid = .ok r) :
    ∃ p, parse cid = some p ∧
      r = ⟨mcpForm p, "PLANNED", "Implementation of " ++ cid ++ " is planned.", [], none⟩ := by
  rw [seedRecord] at h
  cases hp : parse cid with
  | none => rw [hp] at h; cases h
  | some p =>
    rw [hp] at h
    injection h with hh
    exact ⟨p, rfl, hh.symm⟩

theorem createSSP_invalid {gb : String → Except SspError (List String)}
    {t d lvl sid : String} {now : Nat} (h : lvl ∉ validLevels) :
    createSSP gb t d lvl sid now = .error (.invalidSecurityLevel lvl) := by
  rw [createSSP, if_neg h]

theorem createSSP_ok_inv {gb : String → Except SspError (List String)}
    {t d lvl sid : String} {now : Nat} {ssp : SSP}
    (h : createSSP gb t d lvl sid now = .ok ssp) :
    lvl ∈ validLevels ∧ ∃ bl, gb lvl = .ok bl ∧
      mapExcept seedRecord bl = .ok ssp.controlImplementations ∧
      ssp = ⟨sid, t, d, lvl, ssp.controlImplementations, now, now⟩ := by
  rw [createSSP] at h
  split_ifs at h with hlvl
  · cases hgb : gb lvl with
    | error e => rw [hgb, exceptBind_error] at h; cases h
    | ok bl =>
      rw [hgb, exceptBind_ok] at h
      cases hmap : mapExcept seedRecord bl with
      | error e => rw [hmap, exceptBind_error] at h; cases h
      | ok impls =>
        rw [hmap, exceptBind_ok] at h
        injection h with hh
        subst hh
        exact ⟨hlvl, bl, rfl, hmap, rfl⟩

theorem addDoc_ok_of {ssp : SSP} {cid st d : String} {roles : List String} {now : Nat}
    {p : ControlParts} (hp : parse cid = some p) (hst : st ∈ validStatuses) :
    addControlImplementationDoc ssp cid st d roles now =
      .ok ({ ssp with
              controlImplementations :=
                upsertRecord ⟨mcpForm p, st, d, roles, some now⟩ ssp.controlImplementations,
              updated := now },
           ⟨mcpForm p, st, d, roles, some now⟩) := by
  rw [addControlImplementationDoc]
  simp only [hp]
  rw [if_pos hst]

theorem addDoc_ok_inv {ssp : SSP} {cid st d : String} {roles : List String} {now : Nat}
    {ssp2 : SSP} {impl : Implementation}
    (h : addControlImplementationDoc ssp cid st d roles now = .ok (ssp2, impl)) :
    ∃ p, parse cid = some p ∧ st ∈ validStatuses ∧
      impl = ⟨mcpForm p, st, d, roles, some now⟩ ∧
      ssp2 = { ssp with
                controlImplementations := upsertRecord impl ssp.controlImplementations,
                updated := now } := by
  rw [addControlImplementationDoc] at h
  split at h
  · cases h
  · rename_i p hp
    split_ifs at h with hst
    · injection h with hpair
      obtain ⟨h1, h2⟩ := Prod.mk.injEq .. ▸ hpair
      exact ⟨p, hp, hst, h2.symm, by rw [← h1, ← h2]⟩

theorem getBaselineControls_profileNotFound {ps : String → Option Profile} {lvl : String}
    (h : ps (jsToUpperStr lvl) = none) :
    getBaselineControls ps lvl = .error (.profileNotFound (jsToUpperStr lvl)) := by
  rw [getBaselineControls, h]

theorem getBaselineControls_empty {ps : String → Option Profile} {lvl : String}
    {prof : Profile} (h : ps (jsToUpperStr lvl) = some prof)
    (he : extractControlIds prof = []) :
    getBaselineControls ps lvl = .error (.emptyProfile (jsToUpperStr lvl)) := by
  rw [getBaselineControls, h]
  simp [he]

theorem getBaselineControls_ok_ne_nil {ps : String → Option Profile} {lvl : String}
    {ids : List String} (h : getBaselineControls ps lvl = .ok ids) : ids ≠ [] := by
  rw [getBaselineControls] at h
  split at h
  · cases h
  · simp only [List.isEmpty_iff] at h
    split_ifs at h with hemp
    injection h with hh
    rw [← hh]
    exact hemp

theorem validateSSP_ok_inv {gb : String → Except SspError (List String)} {ssp : SSP}
    {rep : ValidationReport} (h : validateSSP gb ssp = .ok rep) :
    ∃ bl nbl, gb ssp.securityLevel = .ok bl ∧ mapExcept normalizeE bl = .ok nbl ∧
      rep.missingControls = nbl.filter
        (fun c => !((ssp.controlImplementations.map (fun i => i.controlId)).contains c)) ∧
      rep.valid = rep.missingControls.isEmpty ∧
      rep.totalControls = ssp.controlImplementations.length ∧
      rep.implementationByStatus =
        ssp.controlImplementations.foldl (fun m impl => bumpStatus m impl.status) initStatusMap ∧
      rep.implementationPercentage =
        (if ssp.controlImplementations.length = 0 then (0 : ℚ)
         else toFixed2 (((lookupD rep.implementationByStatus "IMPLEMENTED" : ℚ)
             + (lookupD rep.implementationByStatus "PARTIALLY_IMPLEMENTED" : ℚ) * (1 / 2))
           / (ssp.controlImplementations.length : ℚ) * 100)) := by
  rw [validateSSP] at h
  cases hgb : gb ssp.securityLevel with
  | error e => rw [hgb, exceptBind_error] at h; cases h
  | ok bl =>
    rw [hgb, exceptBind_ok] at h
    cases hmap : mapExcept normalizeE bl with
    | error e => rw [hmap, exceptBind_error] at h; cases h
    | ok nbl =>
      rw [hmap, exceptBind_ok] at h
      injection h with hh
      subst hh
      exact ⟨bl, nbl, rfl, hmap, rfl, rfl, rfl, rfl, rfl⟩

/-! Claim theorems. -/

/-- C3: for every valid textual form, rendering the parse result in either
format yields the canonical rendering (`normalize`), and parsing either
canonical rendering yields the same parsed value back; in particular
`"ac-2(1)"` and `"AC.2.1"` both parse to family AC, number 2,
enhancement 1, while the spaced form `"AC 2 (1)"` is not a supported
grammar and is rejected. -/
theorem claim_C3_parse_roundtrip :
    (∀ t p, parse t = some p →
      normalize t "dot" = some (internalForm p) ∧
      normalize t "hyphen" = some (mcpForm p) ∧
      parse (internalForm p) = some p ∧
      parse (mcpForm p) = some p) ∧
    parse "ac-2(1)" = some ⟨"AC", 2, some 1⟩ ∧
    parse "AC.2.1" = some ⟨"AC", 2, some 1⟩ ∧
    parse "AC 2 (1)" = none := by
  refine ⟨?_, by decide, by decide, by decide⟩
  intro t p h
  refine ⟨?_, ?_, (parse_roundtrip h).2, (parse_roundtrip h).1⟩
  · simp [normalize, h]
  · simp [normalize, h]

/-- Witness for C3 at the concrete input `"ac-2(1)"`. -/
theorem claim_C3_witness :
    parse "ac-2(1)" = some ⟨"AC", 2, some 1⟩ ∧
    normalize "ac-2(1)" "dot" = some (internalForm ⟨"AC", 2, some 1⟩) :=
  ⟨by decide, (claim_C3_parse_roundtrip.1 "ac-2(1)" ⟨"AC", 2, some 1⟩ (by decide)).1⟩

/-- C4: on parsable identifiers `compareControlIds` is a total order:
comparison `0` coincides with equality of the parsed values, swapping the
arguments negates the verdict, strict comparison is transitive and agrees
with the family/number/enhancement lexicographic order in which a missing
enhancement sorts before any present one (including `0`); concretely
`AC-9 < AC-10 < AC-10(1)` and `AC-10 < AC-10(0)`. -/
theorem claim_C4_compare_total_order :
    (∀ a b c pa pb pc, parse a = some pa → parse b = some pb → parse c = some pc →
      (compareControlIds a b = some 0 ↔ pa = pb) ∧
      (compareControlIds a b = some (-1) ↔ compareControlIds b a = some 1) ∧
      (compareControlIds a b = some (-1) → compareControlIds b c = some (-1) →
        compareControlIds a c = some (-1)) ∧
      (compareControlIds a b = some (-1) ↔ keyLt pa pb) ∧
      (pa.family = pb.family → pa.number = pb.number → pa.enhancement = none →
        pb.enhancement ≠ none → compareControlIds a b = some (-1))) ∧
    compareControlIds "AC-9" "AC-10" = some (-1) ∧
    compareControlIds "AC-10" "AC-10(1)" = some (-1) ∧
    compareControlIds "AC-10" "AC-10(0)" = some (-1) := by
  refine ⟨?_, by decide, by decide, by decide⟩
  intro a b c pa pb pc ha hb hc
  rw [compareControlIds_eq ha hb, compareControlIds_eq hb ha,
    compareControlIds_eq hb hc, compareControlIds_eq ha hc]
  refine ⟨?_, ?_, ?_, ?_, ?_⟩
  · simp only [Option.some_inj]
    exact cmpParts_eq_zero
  · simp only [Option.some_inj, cmpParts_swap pa pb]
    omega
  · intro h1 h2
    simp only [Option.some_inj] at h1 h2 ⊢
    exact (cmpParts_neg_one_iff pa pc).mpr
      (keyLt_trans ((cmpParts_neg_one_iff pa pb).mp h1) ((cmpParts_neg_one_iff pb pc).mp h2))
  · simp only [Option.some_inj]
    exact cmpParts_neg_one_iff pa pb
  · intro hf hn he1 he2
    simp only [Option.some_inj]
    apply (cmpParts_neg_one_iff pa pb).mpr
    refine Or.inr ⟨hf, Or.inr ⟨hn, ?_⟩⟩
    cases hpb : pb.enhancement with
    | none => exact absurd hpb he2
    | some e =>
      rw [he1]
      simp only [enhInt]
      omega

/-- Witness for C4 at the concrete identifiers AC-9, AC-10, AC-10(1). -/
theorem claim_C4_witness :
    parse "AC-9" = some ⟨"AC", 9, none⟩ ∧
    compareControlIds "AC-9" "AC-10(1)" = some (-1) :=
  ⟨by decide,
   (claim_C4_compare_total_order.1 "AC-9" "AC-10" "AC-10(1)"
      ⟨"AC", 9, none⟩ ⟨"AC", 10, none⟩ ⟨"AC", 10, some 1⟩
      (by decide) (by decide) (by decide)).2.2.1 (by decide) (by decide)⟩

/-- C7: baseline resolution fails with `profileNotFound` when no profile
document maps to the (uppercased) tier, fails with `emptyProfile` when
the matched document yields no control identifiers, and a successful
resolution never returns the empty list. -/
theorem claim_C7_baseline_resolution_errors :
    ∀ ps lvl,
      (ps (jsToUpperStr lvl) = none →
        getBaselineControls ps lvl = .error (.profileNotFound (jsToUpperStr lvl))) ∧
      (∀ prof, ps (jsToUpperStr lvl) = some prof → extractControlIds prof = [] →
        getBaselineControls ps lvl = .error (.emptyProfile (jsToUpperStr lvl))) ∧
      (∀ ids, getBaselineControls ps lvl = .ok ids → ids ≠ []) := by
  intro ps lvl
  exact ⟨getBaselineControls_profileNotFound,
    fun prof hp he => getBaselineControls_empty hp he,
    fun ids h => getBaselineControls_ok_ne_nil h⟩

/-- Witness for C7: an empty profile map rejects `"moderate"` with
`profileNotFound`, and a map holding a control-free MODERATE profile
rejects it with `emptyProfile`. -/
theorem claim_C7_witness :
    ((fun _ : String => (none : Option Profile)) (jsToUpperStr "moderate") = none) ∧
    getBaselineControls (fun _ => none) "moderate"
      = .error (.profileNotFound "MODERATE") ∧
    ((fun l : String => if l = "MODERATE" then some (⟨some []⟩ : Profile) else none)
        (jsToUpperStr "moderate") = some ⟨some []⟩) ∧
    getBaselineControls (fun l => if l = "MODERATE" then some ⟨some []⟩ else none) "moderate"
      = .error (.emptyProfile "MODERATE") :=
  ⟨rfl,
   ((claim_C7_baseline_resolution_errors (fun _ => none) "moderate").1 rfl).trans (by decide),
   by decide,
   ((claim_C7_baseline_resolution_errors _ "moderate").2.1 ⟨some []⟩ (by decide) rfl).trans
     (by decide)⟩

theorem contains_iff_mem {l : List String} {c : String} : l.contains c = true ↔ c ∈ l := by
  simp [List.contains_iff_exists_mem_beq, beq_iff_eq]

/-- C1: `validateSSP` reports `totalControls` as the number of records in
the document and scores
`100 * (implemented + 0.5 * partially_implemented) / totalControls`
rounded to two decimals, `0` when the document has no records;
`ALTERNATIVE_IMPLEMENTATION`/`NOT_APPLICABLE` records enlarge the
denominator but not the numerator (second scenario conjunct), and the
Scenario C document reports exactly 50.00 with no missing controls. -/
theorem claim_C1_implementation_percentage :
    (∀ gb ssp rep, validateSSP gb ssp = .ok rep →
      rep.totalControls = ssp.controlImplementations.length ∧
      rep.implementationPercentage =
        (if rep.totalControls = 0 then (0 : ℚ)
         else toFixed2 (100 * ((countStatus ssp.controlImplementations "IMPLEMENTED" : ℚ)
             + (1 / 2) * (countStatus ssp.controlImplementations "PARTIALLY_IMPLEMENTED" : ℚ))
           / (rep.totalControls : ℚ)))) ∧
    ((scenDoc.bind (validateSSP scenResolver)).map
        (fun r => (r.implementationPercentage, r.missingControls)) = .ok (50, [])) ∧
    ((validateSSP scenResolver altDoc).map
        (fun r => (r.implementationPercentage, r.totalControls)) = .ok (0, 2)) := by
  refine ⟨?_, ?_, ?_⟩
  · intro gb ssp rep h
    obtain ⟨bl, nbl, hgb, hmap, hmiss, hvalid, htot, hstat, hpct⟩ := validateSSP_ok_inv h
    refine ⟨htot, ?_⟩
    rw [hpct, htot]
    by_cases hL : ssp.controlImplementations.length = 0
    · rw [if_pos hL, if_pos hL]
    · rw [if_neg hL, if_neg hL]
      have hi : lookupD rep.implementationByStatus "IMPLEMENTED"
          = countStatus ssp.controlImplementations "IMPLEMENTED" := by
        rw [hstat, lookupD_foldl_bump]
        simp [initStatusMap, lookupD]
      have hp2 : lookupD rep.implementationByStatus "PARTIALLY_IMPLEMENTED"
          = countStatus ssp.controlImplementations "PARTIALLY_IMPLEMENTED" := by
        rw [hstat, lookupD_foldl_bump]
        simp [initStatusMap, lookupD]
      rw [hi, hp2]
      congr 1
      have hQ : (ssp.controlImplementations.length : ℚ) ≠ 0 := Nat.cast_ne_zero.mpr hL
      field_simp
      ring
  · have hc : (scenDoc.bind (validateSSP scenResolver)).map
        (fun r => (r.implementationPercentage, r.missingControls))
        = .ok (toFixed2 ((((1 : ℕ) : ℚ) + ((1 : ℕ) : ℚ) * (1 / 2)) / ((3 : ℕ) : ℚ) * 100),
               []) := rfl
    rw [hc]
    norm_num [toFixed2]
  · have hc : (validateSSP scenResolver altDoc).map
        (fun r => (r.implementationPercentage, r.totalControls))
        = .ok (toFixed2 ((((0 : ℕ) : ℚ) + ((0 : ℕ) : ℚ) * (1 / 2)) / ((2 : ℕ) : ℚ) * 100),
               2) := rfl
    rw [hc]
    norm_num [toFixed2]

/-- Witness for C1: the record-free MODERATE document validates to the
zero report. -/
theorem claim_C1_witness :
    validateSSP scenResolver emptyDoc
      = .ok ⟨false, ["AC-1", "AC-2", "SI-4"], initStatusMap, 0, 0⟩ ∧
    (⟨false, ["AC-1", "AC-2", "SI-4"], initStatusMap, 0, 0⟩ : ValidationReport).totalControls
      = emptyDoc.controlImplementations.length :=
  ⟨rfl, (claim_C1_implementation_percentage.1 scenResolver emptyDoc _ rfl).1⟩

/-- C2: a baseline identifier lands in `missingControls` precisely when
no record of the document matches it under canonical identifier equality
(for documents whose stored record ids are canonical, which the store's
operations guarantee); `totalControls` is the document's record count,
not the baseline size; and the report is `valid` exactly when
`missingControls` is empty. -/
theorem claim_C2_missing_controls :
    ∀ gb ssp rep bl,
      validateSSP gb ssp = .ok rep →
      gb ssp.securityLevel = .ok bl →
      (∀ r ∈ ssp.controlImplementations, normalize r.controlId = some r.controlId) →
      ((∀ c, c ∈ rep.missingControls ↔
          ((∃ b ∈ bl, normalize b = some c) ∧
            ∀ r ∈ ssp.controlImplementations, ¬ canonEq r.controlId c)) ∧
        rep.totalControls = ssp.controlImplementations.length ∧
        (rep.valid = true ↔ rep.missingControls = [])) := by
  intro gb ssp rep bl h hgb hcanon
  obtain ⟨bl2, nbl, hgb2, hmap, hmiss, hvalid, htot, -, -⟩ := validateSSP_ok_inv h
  rw [hgb] at hgb2
  injection hgb2 with hE
  subst hE
  refine ⟨?_, htot, ?_⟩
  · intro c
    rw [hmiss, List.mem_filter]
    have hmem := mapExcept_mem_iff hmap c
    constructor
    · rintro ⟨hin, hpred⟩
      rcases hmem.mp hin with ⟨b, hb, hfb⟩
      refine ⟨⟨b, hb, normalizeE_ok_iff.mp hfb⟩, ?_⟩
      have hcC : normalize c = some c := by
        rcases normalizeE_ok_inv hfb with ⟨p, hp, rfl⟩
        exact normalize_mcpForm_fix hp
      intro r hr hce
      have hEq : r.controlId = c := (canonEq_iff_eq (hcanon r hr) hcC).mp hce
      have hmemIds : c ∈ ssp.controlImplementations.map (fun i => i.controlId) :=
        List.mem_map.mpr ⟨r, hr, hEq⟩
      rw [Bool.not_eq_true'] at hpred
      exact absurd (contains_iff_mem.mpr hmemIds) (by rw [hpred]; exact Bool.false_ne_true)
    · rintro ⟨⟨b, hb, hnb⟩, hall⟩
      refine ⟨hmem.mpr ⟨b, hb, normalizeE_ok_iff.mpr hnb⟩, ?_⟩
      rw [Bool.not_eq_true']
      rcases normalize_hyphen_inv hnb with ⟨p, hp, rfl⟩
      cases hcon : (ssp.controlImplementations.map (fun i => i.controlId)).contains (mcpForm p)
      · rfl
      · exfalso
        rcases List.mem_map.mp (contains_iff_mem.mp hcon) with ⟨r, hr, hEq⟩
        exact hall r hr ⟨by rw [hEq, (parse_roundtrip hp).1]; rfl,
          by rw [hEq, (parse_roundtrip hp).1]⟩
  · rw [hvalid]
    exact List.isEmpty_iff

/-- Witness for C2 at the record-free MODERATE document. -/
theorem claim_C2_witness :
    validateSSP scenResolver emptyDoc
      = .ok ⟨false, ["AC-1", "AC-2", "SI-4"], initStatusMap, 0, 0⟩ ∧
    scenResolver emptyDoc.securityLevel = .ok ["AC-1", "AC-2", "SI-4"] ∧
    (⟨false, ["AC-1", "AC-2", "SI-4"], initStatusMap, 0, 0⟩ : ValidationReport).totalControls
      = emptyDoc.controlImplementations.length :=
  ⟨rfl, by decide,
   (claim_C2_missing_controls scenResolver emptyDoc _ ["AC-1", "AC-2", "SI-4"] rfl (by decide)
     (by intro r hr; cases hr)).2.1⟩

theorem forall₂_exists_left {R : α → β → Prop} :
    ∀ {l : List α} {l2 : List β}, List.Forall₂ R l l2 →
      ∀ b ∈ l2, ∃ a ∈ l, R a b := by
  intro l l2 h
  induction h with
  | nil => intro b hb; cases hb
  | cons hab _htail ih =>
    intro b hb
    rcases List.mem_cons.mp hb with rfl | hb2
    · exact ⟨_, List.mem_cons_self .., hab⟩
    · rcases ih b hb2 with ⟨a, ha, hr⟩
      exact ⟨a, List.mem_cons_of_mem _ ha, hr⟩

theorem pairwise_of_forall₂ {R : α → β → Prop} {S : α → α → Prop} {T : β → β → Prop}
    (hRT : ∀ a b a2 b2, R a a2 → R b b2 → S a b → T a2 b2) :
    ∀ {l : List α} {l2 : List β}, List.Forall₂ R l l2 → l.Pairwise S → l2.Pairwise T := by
  intro l l2 hF
  induction hF with
  | nil => intro _; exact List.Pairwise.nil
  | cons hab htail ih =>
    intro hp
    rcases List.pairwise_cons.mp hp with ⟨h1, h2⟩
    refine List.pairwise_cons.mpr ⟨?_, ih h2⟩
    intro b2 hb2
    rcases forall₂_exists_left htail b2 hb2 with ⟨b, hbmem, hRb⟩
    exact hRT _ _ _ _ hab hRb (h1 b hbmem)

/-- C5 counterexample: the records seeded by `createSSP` carry a
generated, non-empty description ("Implementation of <id> is planned."),
so the claimed "empty role/description defaults" fail on the description
side at the Scenario B input. -/
theorem claim_C5_counterexample :
    (createSSP scenResolver "Scenario System" "demo" "MODERATE" "sys-1" 0).map
        (fun s => s.controlImplementations.map (fun r => r.description))
      = .ok ["Implementation of AC-1 is planned.",
             "Implementation of AC-2 is planned.",
             "Implementation of SI-4 is planned."] ∧
    ("Implementation of AC-1 is planned." : String) ≠ "" :=
  ⟨by decide, by decide⟩

/-- C5 (amended): `createSSP` rejects any tier outside LOW/MODERATE/HIGH
with the invalid-security-level error; on success it seeds exactly one
record per baseline entry, each with status `PLANNED`, empty
`responsibleRoles`, the normalized control id, and the generated
description `"Implementation of <raw id> is planned."`; the Scenario B
document has exactly the three PLANNED records AC-1, AC-2, SI-4. -/
theorem claim_C5_create_seeds_planned :
    (∀ gb t d lvl sid now, lvl ∉ validLevels →
      createSSP gb t d lvl sid now = .error (.invalidSecurityLevel lvl)) ∧
    (∀ gb t d lvl sid now bl ssp,
      gb lvl = .ok bl →
      createSSP gb t d lvl sid now = .ok ssp →
      ssp.controlImplementations.length = bl.length ∧
      List.Forall₂ (fun cid r => ∃ p, parse cid = some p ∧
          r = ⟨mcpForm p, "PLANNED", "Implementation of " ++ cid ++ " is planned.", [], none⟩)
        bl ssp.controlImplementations) ∧
    ((createSSP scenResolver "Scenario System" "demo" "MODERATE" "sys-1" 0).map
        (fun s => s.controlImplementations.map (fun r => (r.controlId, r.status)))
      = .ok [("AC-1", "PLANNED"), ("AC-2", "PLANNED"), ("SI-4", "PLANNED")]) := by
  refine ⟨?_, ?_, by decide⟩
  · intro gb t d lvl sid now hbad
    exact createSSP_invalid hbad
  · intro gb t d lvl sid now bl ssp hgb h
    obtain ⟨hlvl, bl2, hgb2, hmap, -⟩ := createSSP_ok_inv h
    rw [hgb] at hgb2
    injection hgb2 with hE
    subst hE
    exact ⟨mapExcept_length hmap,
      (mapExcept_forall₂ hmap).imp (fun a r hab => seedRecord_ok_inv hab)⟩

/-- Witness for C5 (amended): the invalid tier `"EXTREME"` is rejected. -/
theorem claim_C5_witness :
    ("EXTREME" ∉ validLevels) ∧
    createSSP scenResolver "Scenario System" "demo" "EXTREME" "sys-1" 0
      = .error (.invalidSecurityLevel "EXTREME") :=
  ⟨by decide,
   claim_C5_create_seeds_planned.1 scenResolver "Scenario System" "demo" "EXTREME" "sys-1" 0
     (by decide)⟩

/-- C6 counterexample: a resolved baseline listing `"AC-1"` and `"AC.1"`
(the same canonical identifier in two textual forms) makes `createSSP`
seed two records for the same canonical identifier — the operation does
not deduplicate, so the claimed invariant fails on its output. -/
theorem claim_C6_counterexample :
    createSSP dupResolver "Dup System" "demo" "MODERATE" "dup-1" 0 = .ok dupSSP ∧
    ¬ atMostOnePerCanonical dupSSP.controlImplementations := by
  refine ⟨by decide, ?_⟩
  intro h
  rcases List.pairwise_cons.mp h with ⟨h1, -⟩
  exact h1 _ (List.mem_cons_self ..) ⟨by decide, rfl⟩

/-- C6 (amended): the upsert preserves the canonical-key invariant
(canonical stored ids, pairwise distinct — hence at most one record per
canonical identifier, matching by canonical rather than raw-text
equality), and `createSSP` establishes it provided the resolved baseline
contains no two entries with the same canonical identifier; without that
proviso the seeding step duplicates records (see the counterexample). -/
theorem claim_C6_canonical_key_invariant :
    (∀ ssp cid st d roles now ssp2 impl,
      canonicallyKeyed ssp.controlImplementations →
      addControlImplementationDoc ssp cid st d roles now = .ok (ssp2, impl) →
      canonicallyKeyed ssp2.controlImplementations) ∧
    (∀ gb t d lvl sid now bl ssp,
      gb lvl = .ok bl →
      bl.Pairwise (fun b1 b2 => ¬ canonEq b1 b2) →
      createSSP gb t d lvl sid now = .ok ssp →
      canonicallyKeyed ssp.controlImplementations) ∧
    (∀ l, canonicallyKeyed l → atMostOnePerCanonical l) := by
  refine ⟨?_, ?_, ?_⟩
  · intro ssp cid st d roles now ssp2 impl hkey h
    obtain ⟨p, hp, -, himpl, hssp2⟩ := addDoc_ok_inv h
    rcases hkey with ⟨hcanon, hpw⟩
    subst hssp2
    constructor
    · intro r hr
      rcases upsertRecord_mem hr with rfl | hr2
      · rw [himpl]
        exact normalize_mcpForm_fix hp
      · exact hcanon r hr2
    · exact upsertRecord_pairwise hpw
  · intro gb t d lvl sid now bl ssp hgb hpw h
    obtain ⟨-, bl2, hgb2, hmap, -⟩ := createSSP_ok_inv h
    rw [hgb] at hgb2
    injection hgb2 with hE
    subst hE
    constructor
    · exact mapExcept_forall_mem hmap (fun a r _ha hseed => by
        rcases seedRecord_ok_inv hseed with ⟨p, hp, rfl⟩
        exact normalize_mcpForm_fix hp)
    · refine pairwise_of_forall₂ ?_ (mapExcept_forall₂ hmap) hpw
      intro b1 b2 r1 r2 hs1 hs2 hne
      rcases seedRecord_ok_inv hs1 with ⟨p1, hp1, rfl⟩
      rcases seedRecord_ok_inv hs2 with ⟨p2, hp2, rfl⟩
      intro hEq
      have hpp : p1 = p2 := mcpForm_inj hp1 hp2 hEq
      exact hne ⟨by rw [hp1]; rfl, by rw [hp1, hp2, hpp]⟩
  · intro l hkey
    rcases hkey with ⟨hcanon, hpw⟩
    refine hpw.imp_of_mem ?_
    intro r1 r2 h1 h2 hne hce
    exact hne ((canonEq_iff_eq (hcanon r1 h1) (hcanon r2 h2)).mp hce)

/-- Witness for C6 (amended): upserting AC-1 into the scenario-seeded
document keeps the invariant. -/
theorem claim_C6_witness :
    canonicallyKeyed ([] : List Implementation) ∧
    (∀ ssp2 impl,
      addControlImplementationDoc emptyDoc "AC-1" "IMPLEMENTED" "done" [] 1 = .ok (ssp2, impl) →
      canonicallyKeyed ssp2.controlImplementations) :=
  ⟨⟨(by intro r hr; cases hr), List.Pairwise.nil⟩,
   fun ssp2 impl h =>
     claim_C6_canonical_key_invariant.1 emptyDoc "AC-1" "IMPLEMENTED" "done" [] 1 ssp2 impl
       ⟨(by intro r hr; cases hr), List.Pairwise.nil⟩ h⟩

/-- C8: calling `addControlImplementation` twice with identical arguments
leaves the record list identical up to `lastUpdated` timestamps — in
particular the record count does not grow on the second call. -/
theorem claim_C8_upsert_idempotent :
    ∀ ssp cid st d roles t1 t2 ssp1 impl1,
      addControlImplementationDoc ssp cid st d roles t1 = .ok (ssp1, impl1) →
      ∃ ssp2 impl2,
        addControlImplementationDoc ssp1 cid st d roles t2 = .ok (ssp2, impl2) ∧
        ssp2.controlImplementations.map stripTime
          = ssp1.controlImplementations.map stripTime ∧
        ssp2.controlImplementations.length = ssp1.controlImplementations.length := by
  intro ssp cid st d roles t1 t2 ssp1 impl1 h
  obtain ⟨p, hp, hst, himpl1, hssp1⟩ := addDoc_ok_inv h
  subst himpl1
  subst hssp1
  have h2 := @upsertRecord_map_strip ⟨mcpForm p, st, d, roles, some t1⟩
    ⟨mcpForm p, st, d, roles, some t2⟩ rfl rfl ssp.controlImplementations
  refine ⟨_, _, addDoc_ok_of hp hst, h2, ?_⟩
  simpa using congrArg List.length h2

/-- Witness for C8 at a concrete document and argument tuple. -/
theorem claim_C8_witness :
    addControlImplementationDoc emptyDoc "AC-1" "IMPLEMENTED" "x" [] 0
      = .ok ((⟨"empty-1", "Empty System", "demo", "MODERATE",
              [⟨"AC-1", "IMPLEMENTED", "x", [], some 0⟩], 0, 0⟩ : SSP),
             (⟨"AC-1", "IMPLEMENTED", "x", [], some 0⟩ : Implementation)) ∧
    ∃ ssp2 impl2,
      addControlImplementationDoc
          ⟨"empty-1", "Empty System", "demo", "MODERATE",
            [⟨"AC-1", "IMPLEMENTED", "x", [], some 0⟩], 0, 0⟩ "AC-1" "IMPLEMENTED" "x" [] 1
        = .ok (ssp2, impl2) ∧
      ssp2.controlImplementations.map stripTime
        = [⟨"AC-1", "IMPLEMENTED", "x", [], some 0⟩].map stripTime ∧
      ssp2.controlImplementations.length = [(⟨"AC-1", "IMPLEMENTED", "x", [], some 0⟩ : Implementation)].length :=
  ⟨by decide,
   claim_C8_upsert_idempotent emptyDoc "AC-1" "IMPLEMENTED" "x" [] 0 1
     ⟨"empty-1", "Empty System", "demo", "MODERATE",
       [⟨"AC-1", "IMPLEMENTED", "x", [], some 0⟩], 0, 0⟩
     ⟨"AC-1", "IMPLEMENTED", "x", [], some 0⟩ (by decide)⟩

/-- C9 counterexample: `XX-99` is syntactically valid and absent from the
loaded catalog (whose `controls` object is empty), yet `getControl`
returns synthesized metadata instead of a not-found error. -/
theorem claim_C9_counterexample :
    (parse "XX-99").isSome = true ∧
    "XX-99" ∉ catalogControls ∧
    getControl "XX-99"
      = .ok ⟨"XX-99", "Control XX-99", "This is a placeholder for control XX-99", "XX"⟩ :=
  ⟨by decide, by decide, by decide⟩

theorem splitHead_mcpForm {s : String} {p : ControlParts} (h : parse s = some p) :
    splitHead (mcpForm p) '-' = p.family := by
  obtain ⟨f1, f2, rest, -, hu1, hu2, hfam, -⟩ := parse_some_inv h
  cases p with
  | mk fam num enh =>
    simp only at hfam
    subst hfam
    have hdata : (mcpForm ⟨⟨[f1, f2]⟩, num, enh⟩).data
        = [f1, f2] ++ '-' :: (natDigits num ++ mcpTail enh) := by
      cases enh <;> rfl
    have hne : ∀ c, isUpperCh c = true → (fun c => decide (c ≠ '-')) c = true := by
      intro c hc
      simp only [decide_eq_true_eq]
      intro hcc
      rw [hcc] at hc
      exact absurd hc (by decide)
    rw [splitHead, hdata,
      @takeWhile_block (fun c => decide (c ≠ '-')) [f1, f2]
        ('-' :: (natDigits num ++ mcpTail enh))
        (by intro c hc
            rcases List.mem_cons.mp hc with rfl | hc2
            · exact hne c hu1
            · rcases List.mem_cons.mp hc2 with rfl | hc3
              · exact hne c hu2
              · cases hc3)
        (by rintro r rs ⟨rfl, rfl⟩; simp)]

/-- C9 (amended): `getControl` performs no catalog lookup at all: it
fails only with the malformed-identifier error on unparsable input, and
for every syntactically valid identifier — present in a catalog or not —
it returns the synthesized placeholder metadata over the normalized id. -/
theorem claim_C9_get_control_stub :
    ∀ cid,
      (parse cid = none → getControl cid = .error (.malformedIdentifier cid)) ∧
      (∀ p, parse cid = some p →
        getControl cid = .ok ⟨mcpForm p, "Control " ++ mcpForm p,
          "This is a placeholder for control " ++ mcpForm p, p.family⟩) := by
  intro cid
  constructor
  · intro hp
    rw [getControl, hp]
  · intro p hp
    obtain ⟨f1, f2, rest, -, -, -, hfam, -⟩ := parse_some_inv hp
    rw [getControl]
    simp only [hp]
    rw [splitHead_mcpForm hp,
      if_pos (by rw [hfam]; intro hEq; cases congrArg String.data hEq)]

/-- Witness for C9 (amended) at the identifier `"si.4"`. -/
theorem claim_C9_witness :
    parse "si.4" = some ⟨"SI", 4, none⟩ ∧
    getControl "si.4" = .ok ⟨mcpForm ⟨"SI", 4, none⟩, "Control " ++ mcpForm ⟨"SI", 4, none⟩,
      "This is a placeholder for control " ++ mcpForm ⟨"SI", 4, none⟩,
      ControlParts.family ⟨"SI", 4, none⟩⟩ :=
  ⟨by decide, (claim_C9_get_control_stub "si.4").2 ⟨"SI", 4, none⟩ (by decide)⟩

/-- C10: a call to the persisted upsert with an unparsable control id or
an unrecognized status returns an error and leaves the store exactly as
it was — the document file is only rewritten after all validation. -/
theorem claim_C10_failed_upsert_atomic :
    ∀ docs sspId cid st d roles now,
      (parse cid = none ∨ st ∉ validStatuses) →
      (addControlImplementationRun docs sspId cid st d roles now).1 = docs ∧
      ∃ e, (addControlImplementationRun docs sspId cid st d roles now).2 = .error e := by
  intro docs sspId cid st d roles now hbad
  have herr : ∀ ssp, ∃ e, addControlImplementationDoc ssp cid st d roles now = .error e := by
    intro ssp
    rcases hbad with hparse | hstatus
    · exact ⟨_, by rw [addControlImplementationDoc, hparse]⟩
    · cases hp : parse cid with
      | none => exact ⟨_, by rw [addControlImplementationDoc, hp]⟩
      | some p =>
        refine ⟨.invalidStatus st, ?_⟩
        rw [addControlImplementationDoc]
        simp only [hp]
        rw [if_neg hstatus]
  rw [addControlImplementationRun]
  split
  · exact ⟨rfl, _, rfl⟩
  · rename_i ssp0 _heq
    obtain ⟨e, he⟩ := herr ssp0
    rw [he]
    exact ⟨rfl, e, rfl⟩

/-- Witness for C10: an unrecognized status `"DONE"` against a one-document
store leaves the store unchanged and errors out. -/
theorem claim_C10_witness :
    (parse "AC-1" = none ∨ "DONE" ∉ validStatuses) ∧
    (addControlImplementationRun (singleStore emptyDoc) "empty-1" "AC-1" "DONE" "x" [] 5).1
      = singleStore emptyDoc ∧
    ∃ e, (addControlImplementationRun (singleStore emptyDoc) "empty-1" "AC-1" "DONE" "x" [] 5).2
      = .error e :=
  ⟨Or.inr (by decide),
   (claim_C10_failed_upsert_atomic (singleStore emptyDoc) "empty-1" "AC-1" "DONE" "x" [] 5
      (Or.inr (by decide))).1,
   (claim_C10_failed_upsert_atomic (singleStore emptyDoc) "empty-1" "AC-1" "DONE" "x" [] 5
      (Or.inr (by decide))).2⟩

end OscalMcp
